import Mathlib

/-!
Verification of the streaming JSON parser
(src/streaming-json-parser/streaming_json_parser.py).

The parser is embedded shallowly: the Python class `StreamingJsonParser`
becomes the structure `ParserState`, each `_handle_*` method becomes a pure
function `ParserState → ParserState`, the per-character dispatch of
`consume` becomes `step`, and `consume` itself is a left fold of `step`
over the characters of the chunk.  Python dictionaries are modelled as
insertion-ordered association lists (`Frame`), with `insertFrame` capturing
`d[k] = v` (update in place when the key is present, append otherwise).
Python truthiness of `self.current_key` (non-None and non-empty) is modelled
explicitly; `x is not None` is `≠ none`.

A value in a frame is either a string or (transitively) a nested object,
as in Python, so `JValue` is an inductive with both constructors; the
development proves the nested constructor is never produced from a fresh
parser.

The Python field `partial_string` is named `part_string` here.
-/

namespace StreamingJson

/-- A JSON value as the Python code can store it in a dict: either a string
or a nested object (insertion-ordered list of key/value pairs). -/
inductive JValue : Type where
  | str : String → JValue
  | obj : List (String × JValue) → JValue

/-- One JSON object under construction: an insertion-ordered mapping from
string keys to values, modelling a Python dict. -/
abbrev Frame : Type := List (String × JValue)

/-- Python `d[k] = v` on an insertion-ordered dict: if `k` is present the
binding is updated in place, otherwise the pair is appended at the end. -/
def insertFrame (f : Frame) (k : String) (v : JValue) : Frame :=
  if f.any (fun p => p.1 = k) then
    f.map (fun p => if p.1 = k then (p.1, v) else p)
  else
    f ++ [(k, v)]

/-- The mutable fields of the Python class `StreamingJsonParser`.
`part_string` models the Python field `partial_string`; the stack is kept
top-first (Python appends at the end and reads/pops `stack[-1]`). -/
structure ParserState : Type where
  stack : List Frame
  current_key : Option String
  current_value : Option String
  in_string : Bool
  part_string : String
  result : Frame

/-- `__init__`: empty stack, no current key or value, not in a string,
empty partial string, empty result. -/
def init : ParserState :=
  { stack := [], current_key := none, current_value := none,
    in_string := false, part_string := "", result := [] }

/-- `_handle_start_object`: a new empty frame is pushed only when the stack
is empty. -/
def handle_start_object (s : ParserState) : ParserState :=
  match s.stack with
  | [] => { s with stack := [[]] }
  | _ => s

/-- `_handle_end_object`: only acts when the stack is non-empty.  A pending
pair with a truthy (non-empty) key and non-None value is committed into the
top frame, the top frame is popped; if frames remain and the key is truthy
the completed object is stored under it in the new top frame and the key is
cleared, otherwise (stack now empty) the pending pair is committed again
into the completed object and it becomes the result. -/
def handle_end_object (s : ParserState) : ParserState :=
  match s.stack with
  | [] => s
  | top :: rest =>
    let top1 : Frame :=
      match s.current_key, s.current_value with
      | some k, some v => if k = "" then top else insertFrame top k (JValue.str v)
      | _, _ => top
    match rest with
    | next :: rest2 =>
      match s.current_key with
      | some k =>
        if k = "" then { s with stack := next :: rest2 }
        else
          { s with stack := insertFrame next k (JValue.obj top1) :: rest2,
                   current_key := none }
      | none => { s with stack := next :: rest2 }
    | [] =>
      let completed : Frame :=
        match s.current_key, s.current_value with
        | some k, some v => if k = "" then top1 else insertFrame top1 k (JValue.str v)
        | _, _ => top1
      { s with stack := [], result := completed }

/-- `_handle_colon`: a no-op. -/
def handle_colon (s : ParserState) : ParserState := s

/-- `_handle_quote`: toggles string mode.  On the closing quote the
accumulated partial string becomes the current key when no key is set
(`current_key is None`), and the current value otherwise; the accumulator
is cleared on both the opening and the closing quote. -/
def handle_quote (s : ParserState) : ParserState :=
  if s.in_string then
    match s.current_key with
    | none =>
      { s with current_key := some s.part_string, part_string := "",
               in_string := false }
    | some _ =>
      { s with current_value := some s.part_string, part_string := "",
               in_string := false }
  else
    { s with in_string := true, part_string := "" }

/-- `_handle_comma`: when the current key is truthy (set and non-empty) and
the current value is not None, the pair is committed into the top frame if
the stack is non-empty, and the key and value are cleared in either case. -/
def handle_comma (s : ParserState) : ParserState :=
  match s.current_key, s.current_value with
  | some k, some v =>
    if k = "" then s
    else
      match s.stack with
      | top :: rest =>
        { s with stack := insertFrame top k (JValue.str v) :: rest,
                 current_key := none, current_value := none }
      | [] => { s with current_key := none, current_value := none }
  | _, _ => s

/-- Python `char.strip()` is falsy for a single character exactly when the
character is whitespace; the spec restricts attention to ASCII-style
whitespace. -/
def isWs (c : Char) : Bool :=
  c = ' ' || c = '\t' || c = '\n' || c = '\r' || c = '\x0b' || c = '\x0c'

/-- `_handle_non_special_character`: inside a string the character is
appended to the accumulator unconditionally; outside a string a
non-whitespace character is appended to the current value (creating it when
it is None), and whitespace is discarded. -/
def handle_non_special_character (s : ParserState) (c : Char) : ParserState :=
  if s.in_string then
    { s with part_string := s.part_string.push c }
  else if isWs c then s
  else
    match s.current_value with
    | none => { s with current_value := some (String.singleton c) }
    | some v => { s with current_value := some (v.push c) }

/-- The per-character dispatch of `consume`: the five structural characters
go to their handlers, every other character to the literal handler. -/
def step (s : ParserState) (c : Char) : ParserState :=
  if c = '\x7b' then handle_start_object s
  else if c = '\x7d' then handle_end_object s
  else if c = ':' then handle_colon s
  else if c = '"' then handle_quote s
  else if c = ',' then handle_comma s
  else handle_non_special_character s c

/-- `consume`: iterate the chunk one character at a time, in order. -/
def consume (s : ParserState) (buffer : String) : ParserState :=
  buffer.data.foldl step s

/-- The first phase of `get`: if the current key is truthy and the current
value is not None and the stack is non-empty, commit the pair into the top
frame and clear both; else if the current key is set (possibly empty), the
current value is None and the stack is non-empty, commit the key with the
partial-string accumulator as value and clear both. -/
def getCommit (s : ParserState) : ParserState :=
  match s.stack with
  | top :: rest =>
    match s.current_key, s.current_value with
    | some k, some v =>
      if k = "" then s
      else
        { s with stack := insertFrame top k (JValue.str v) :: rest,
                 current_key := none, current_value := none }
    | some k, none =>
      { s with stack := insertFrame top k (JValue.str s.part_string) :: rest,
               current_key := none, current_value := none }
    | none, _ => s
  | [] => s

/-- The second phase of `get`: if the result is still empty (`== {}`) and
the stack is non-empty, pop the top frame into the result. -/
def getFinalize (s : ParserState) : ParserState :=
  match s.stack, s.result with
  | top :: rest, [] => { s with result := top, stack := rest }
  | _, _ => s

/-- The state after a `get` call (`get` mutates pending-commit state). -/
def getState (s : ParserState) : ParserState := getFinalize (getCommit s)

/-- The dictionary returned by `get`. -/
def getResult (s : ParserState) : Frame := (getState s).result

/-- One public call on the parser: `consume` with some chunk, or `get`. -/
inductive Op : Type where
  | consume : String → Op
  | get : Op

/-- The state transition of one public call (`get`'s return value is
`getResult`; its effect on the state is `getState`). -/
def applyOp (s : ParserState) : Op → ParserState
  | Op.consume b => consume s b
  | Op.get => getState s

/-- The parser state after a sequence of public calls on a fresh parser. -/
def run (ops : List Op) : ParserState := ops.foldl applyOp init

/-!
A second, fault-aware rendering of the same code.  Python raises
`IndexError` on `self.stack[-1]` or `self.stack.pop()` when the stack is
empty; these two primitive accesses are modelled as `Option`-valued
(`none` = a raised fault), and each handler is re-written with the exact
guard structure of the source, all other statements unchanged.  Proving the
checked rendering always returns `some` of the total one shows the guards
in the source protect every partial access, i.e. `consume` and `get` never
raise.
-/

/-- Python `self.stack[-1][k] = v`: an `IndexError` when the stack is
empty, otherwise the in-place dict update on the top frame. -/
def setTop (stack : List Frame) (k : String) (v : JValue) :
    Option (List Frame) :=
  match stack with
  | [] => none
  | top :: rest => some (insertFrame top k v :: rest)

/-- Python `self.stack.pop()`: an `IndexError` when the stack is empty,
otherwise the top frame and the remaining stack. -/
def popTop (stack : List Frame) : Option (Frame × List Frame) :=
  match stack with
  | [] => none
  | top :: rest => some (top, rest)

/-- `_handle_end_object` with partial stack accesses made explicit. -/
def handle_end_object_checked (s : ParserState) : Option ParserState :=
  match s.stack with
  | [] => some s
  | _ :: _ => do
    let stack1 ←
      match s.current_key, s.current_value with
      | some k, some v =>
        if k = "" then some s.stack else setTop s.stack k (JValue.str v)
      | _, _ => some s.stack
    let (completed, rest) ← popTop stack1
    match rest with
    | _ :: _ =>
      match s.current_key with
      | some k =>
        if k = "" then some { s with stack := rest }
        else do
          let stack2 ← setTop rest k (JValue.obj completed)
          some { s with stack := stack2, current_key := none }
      | none => some { s with stack := rest }
    | [] =>
      let completed2 :=
        match s.current_key, s.current_value with
        | some k, some v =>
          if k = "" then completed else insertFrame completed k (JValue.str v)
        | _, _ => completed
      some { s with stack := [], result := completed2 }

/-- `_handle_comma` with the partial stack access made explicit. -/
def handle_comma_checked (s : ParserState) : Option ParserState :=
  match s.current_key, s.current_value with
  | some k, some v =>
    if k = "" then some s
    else do
      let stack1 ←
        match s.stack with
        | [] => some s.stack
        | _ :: _ => setTop s.stack k (JValue.str v)
      some { s with stack := stack1, current_key := none,
                    current_value := none }
  | _, _ => some s

/-- The first phase of `get` with partial stack accesses made explicit. -/
def getCommitChecked (s : ParserState) : Option ParserState :=
  match s.stack with
  | [] => some s
  | _ :: _ =>
    match s.current_key, s.current_value with
    | some k, some v =>
      if k = "" then some s
      else do
        let stack1 ← setTop s.stack k (JValue.str v)
        some { s with stack := stack1, current_key := none,
                      current_value := none }
    | some k, none => do
      let stack1 ← setTop s.stack k (JValue.str s.part_string)
      some { s with stack := stack1, current_key := none,
                    current_value := none }
    | none, _ => some s

/-- The second phase of `get` with the partial `pop` made explicit. -/
def getFinalizeChecked (s : ParserState) : Option ParserState :=
  match s.stack, s.result with
  | _ :: _, [] => do
    let (top, rest) ← popTop s.stack
    some { s with result := top, stack := rest }
  | _, _ => some s

/-- A full `get` call in the fault-aware rendering: the updated state and
the returned dictionary. -/
def getChecked (s : ParserState) : Option (ParserState × Frame) := do
  let s1 ← getCommitChecked s
  let s2 ← getFinalizeChecked s1
  some (s2, s2.result)

/-- The per-character dispatch in the fault-aware rendering. -/
def stepChecked (s : ParserState) (c : Char) : Option ParserState :=
  if c = '\x7b' then some (handle_start_object s)
  else if c = '\x7d' then handle_end_object_checked s
  else if c = ':' then some (handle_colon s)
  else if c = '"' then some (handle_quote s)
  else if c = ',' then handle_comma_checked s
  else some (handle_non_special_character s c)

/-- `consume` in the fault-aware rendering. -/
def consumeChecked (s : ParserState) (buffer : String) :
    Option ParserState :=
  buffer.data.foldlM stepChecked s

/-- One public call in the fault-aware rendering. -/
def applyOpChecked (s : ParserState) : Op → Option ParserState
  | Op.consume b => consumeChecked s b
  | Op.get => do
    let s1 ← getCommitChecked s
    getFinalizeChecked s1

/-- A sequence of public calls in the fault-aware rendering. -/
def runChecked (ops : List Op) : Option ParserState :=
  ops.foldlM applyOpChecked init

/-- `true` exactly on string values (not nested objects). -/
def isStrVal : JValue → Bool
  | JValue.str _ => true
  | JValue.obj _ => false

/-- Every value bound in the frame is a string. -/
def frameFlat (f : Frame) : Bool := f.all (fun p => isStrVal p.2)

/-- Every frame on the stack is flat. -/
def stackFlat (l : List Frame) : Bool := l.all frameFlat

/-- The reachable-state invariant: at most one open frame, and every value
anywhere is a string. -/
def Inv (s : ParserState) : Prop :=
  s.stack.length ≤ 1 ∧ stackFlat s.stack = true ∧ frameFlat s.result = true

end StreamingJson


namespace StreamingJson

theorem consume_append (s : ParserState) (a b : String) :
    consume s (a ++ b) = consume (consume s a) b := by
  cases a with
  | mk da =>
    cases b with
    | mk db =>
      simp [consume, String.data, List.foldl_append]

theorem handle_comma_checked_eq (s : ParserState) :
    handle_comma_checked s = some (handle_comma s) := by
  rcases s with ⟨stack, ck, cv, instr, ps, res⟩
  rcases ck with _ | k <;> rcases cv with _ | v <;>
    simp only [handle_comma_checked, handle_comma]
  split
  · rfl
  · rcases stack with _ | ⟨top, rest⟩ <;> simp [setTop]

theorem handle_end_object_checked_eq (s : ParserState) :
    handle_end_object_checked s = some (handle_end_object s) := by
  rcases s with ⟨stack, ck, cv, instr, ps, res⟩
  rcases stack with _ | ⟨top, rest⟩
  · rfl
  · rcases ck with _ | k <;> rcases cv with _ | v <;>
      simp only [handle_end_object_checked, handle_end_object] <;>
      rcases rest with _ | ⟨next, rest2⟩ <;>
      simp [setTop, popTop] <;> try (split <;> simp [setTop, popTop])

end StreamingJson

namespace StreamingJson

theorem getCommitChecked_eq (s : ParserState) :
    getCommitChecked s = some (getCommit s) := by
  rcases s with ⟨stack, ck, cv, instr, ps, res⟩
  rcases stack with _ | ⟨top, rest⟩
  · rfl
  rcases ck with _ | k
  · rfl
  rcases cv with _ | v
  · simp [getCommitChecked, getCommit, setTop]
  · by_cases hk : k = "" <;> simp [getCommitChecked, getCommit, setTop, hk]

theorem getFinalizeChecked_eq (s : ParserState) :
    getFinalizeChecked s = some (getFinalize s) := by
  rcases s with ⟨stack, ck, cv, instr, ps, res⟩
  rcases stack with _ | ⟨top, rest⟩ <;> rcases res with _ | ⟨p, res2⟩ <;> rfl

theorem stepChecked_eq (s : ParserState) (c : Char) :
    stepChecked s c = some (step s c) := by
  unfold stepChecked step
  split_ifs <;>
    first
    | rfl
    | exact handle_end_object_checked_eq _
    | exact handle_comma_checked_eq _

theorem foldlM_stepChecked (l : List Char) :
    ∀ s : ParserState, l.foldlM stepChecked s = some (l.foldl step s) := by
  induction l with
  | nil => intro s; rfl
  | cons c cs ih =>
    intro s
    simp only [List.foldlM, List.foldl, stepChecked_eq, Option.bind_eq_bind,
      Option.some_bind]
    exact ih _

theorem consumeChecked_eq (s : ParserState) (b : String) :
    consumeChecked s b = some (consume s b) :=
  foldlM_stepChecked b.data s

theorem applyOpChecked_eq (s : ParserState) (op : Op) :
    applyOpChecked s op = some (applyOp s op) := by
  cases op with
  | consume b => exact consumeChecked_eq s b
  | get =>
    simp only [applyOpChecked, applyOp, getState, getCommitChecked_eq,
      Option.bind_eq_bind, Option.some_bind]
    exact getFinalizeChecked_eq _

theorem foldlM_applyOpChecked (l : List Op) :
    ∀ s : ParserState, l.foldlM applyOpChecked s = some (l.foldl applyOp s) := by
  induction l with
  | nil => intro s; rfl
  | cons op ops ih =>
    intro s
    simp only [List.foldlM, List.foldl, applyOpChecked_eq, Option.bind_eq_bind,
      Option.some_bind]
    exact ih _

theorem runChecked_eq (ops : List Op) : runChecked ops = some (run ops) :=
  foldlM_applyOpChecked ops init

theorem getChecked_eq (s : ParserState) :
    getChecked s = some (getState s, getResult s) := by
  simp only [getChecked, getState, getResult, getCommitChecked_eq,
    getFinalizeChecked_eq, Option.bind_eq_bind, Option.some_bind]

end StreamingJson

namespace StreamingJson

theorem frameFlat_insert (f : Frame) (k t : String)
    (hf : frameFlat f = true) :
    frameFlat (insertFrame f k (JValue.str t)) = true := by
  simp only [frameFlat, List.all_eq_true] at hf
  simp only [frameFlat, insertFrame]
  split
  · simp only [List.all_eq_true]
    intro p hp
    obtain ⟨q, hq, hpq⟩ := List.mem_map.1 hp
    subst hpq
    by_cases h : q.1 = k
    · simp [h, isStrVal]
    · simpa [h] using hf q hq
  · simp only [List.all_append, List.all_eq_true, Bool.and_eq_true]
    refine ⟨fun p hp => hf p hp, ?_⟩
    simp [isStrVal]

theorem inv_handle_start_object (s : ParserState) (h : Inv s) :
    Inv (handle_start_object s) := by
  obtain ⟨h1, h2, h3⟩ := h
  unfold handle_start_object
  split
  · exact ⟨by simp, by simp [stackFlat, frameFlat], h3⟩
  · exact ⟨h1, h2, h3⟩

theorem inv_handle_end_object (s : ParserState) (h : Inv s) :
    Inv (handle_end_object s) := by
  obtain ⟨h1, h2, h3⟩ := h
  rcases s with ⟨stack, ck, cv, instr, ps, res⟩
  rcases stack with _ | ⟨top, rest⟩
  · exact ⟨h1, h2, h3⟩
  rcases rest with _ | ⟨next, rest2⟩
  case cons.cons => simp only [List.length_cons] at h1; omega
  have htop : frameFlat top = true := by
    simp only [stackFlat, List.all_cons, Bool.and_eq_true] at h2
    exact h2.1
  rcases ck with _ | k
  · show Inv
      { stack := [], current_key := none, current_value := cv,
        in_string := instr, part_string := ps, result := top }
    exact ⟨by simp, rfl, htop⟩
  rcases cv with _ | v
  · show Inv
      { stack := [], current_key := some k, current_value := none,
        in_string := instr, part_string := ps, result := top }
    exact ⟨by simp, rfl, htop⟩
  by_cases hk : k = ""
  · subst hk
    show Inv
      { stack := [], current_key := some "", current_value := some v,
        in_string := instr, part_string := ps, result := top }
    exact ⟨by simp, rfl, htop⟩
  · have heq : handle_end_object
        { stack := [top], current_key := some k, current_value := some v,
          in_string := instr, part_string := ps, result := res } =
        { stack := [], current_key := some k, current_value := some v,
          in_string := instr, part_string := ps,
          result := insertFrame (insertFrame top k (JValue.str v)) k
            (JValue.str v) } := by
      simp [handle_end_object, hk]
    rw [heq]
    exact ⟨by simp, rfl, frameFlat_insert _ _ _ (frameFlat_insert _ _ _ htop)⟩

theorem inv_handle_quote (s : ParserState) (h : Inv s) :
    Inv (handle_quote s) := by
  obtain ⟨h1, h2, h3⟩ := h
  unfold handle_quote
  split
  · split <;> exact ⟨h1, h2, h3⟩
  · exact ⟨h1, h2, h3⟩

theorem inv_handle_comma (s : ParserState) (h : Inv s) :
    Inv (handle_comma s) := by
  obtain ⟨h1, h2, h3⟩ := h
  rcases s with ⟨stack, ck, cv, instr, ps, res⟩
  rcases ck with _ | k
  · exact ⟨h1, h2, h3⟩
  rcases cv with _ | v
  · exact ⟨h1, h2, h3⟩
  by_cases hk : k = ""
  · subst hk
    exact ⟨h1, h2, h3⟩
  rcases stack with _ | ⟨top, rest⟩
  · have heq : handle_comma
        { stack := [], current_key := some k, current_value := some v,
          in_string := instr, part_string := ps, result := res } =
        { stack := [], current_key := none, current_value := none,
          in_string := instr, part_string := ps, result := res } := by
      simp [handle_comma, hk]
    rw [heq]
    exact ⟨h1, h2, h3⟩
  · have heq : handle_comma
        { stack := top :: rest, current_key := some k,
          current_value := some v, in_string := instr, part_string := ps,
          result := res } =
        { stack := insertFrame top k (JValue.str v) :: rest,
          current_key := none, current_value := none, in_string := instr,
          part_string := ps, result := res } := by
      simp [handle_comma, hk]
    rw [heq]
    simp only [stackFlat, List.all_cons, Bool.and_eq_true] at h2
    refine ⟨by simpa using h1, ?_, h3⟩
    simp only [stackFlat, List.all_cons, Bool.and_eq_true]
    exact ⟨frameFlat_insert _ _ _ h2.1, h2.2⟩

theorem inv_handle_non_special (s : ParserState) (c : Char) (h : Inv s) :
    Inv (handle_non_special_character s c) := by
  obtain ⟨h1, h2, h3⟩ := h
  unfold handle_non_special_character
  split
  · exact ⟨h1, h2, h3⟩
  split
  · exact ⟨h1, h2, h3⟩
  · split <;> exact ⟨h1, h2, h3⟩

theorem inv_getCommit (s : ParserState) (h : Inv s) : Inv (getCommit s) := by
  obtain ⟨h1, h2, h3⟩ := h
  rcases s with ⟨stack, ck, cv, instr, ps, res⟩
  rcases stack with _ | ⟨top, rest⟩
  · exact ⟨h1, h2, h3⟩
  have h2' := h2
  simp only [stackFlat, List.all_cons, Bool.and_eq_true] at h2'
  have hins : ∀ k t : String,
      Inv
        { stack := insertFrame top k (JValue.str t) :: rest,
          current_key := none, current_value := none, in_string := instr,
          part_string := ps, result := res } := by
    intro k t
    refine ⟨by simpa using h1, ?_, h3⟩
    simp only [stackFlat, List.all_cons, Bool.and_eq_true]
    exact ⟨frameFlat_insert _ _ _ h2'.1, h2'.2⟩
  rcases ck with _ | k
  · exact ⟨h1, h2, h3⟩
  rcases cv with _ | v
  · exact hins k ps
  · by_cases hk : k = ""
    · subst hk
      exact ⟨h1, h2, h3⟩
    · have heq : getCommit
          { stack := top :: rest, current_key := some k,
            current_value := some v, in_string := instr, part_string := ps,
            result := res } =
          { stack := insertFrame top k (JValue.str v) :: rest,
            current_key := none, current_value := none, in_string := instr,
            part_string := ps, result := res } := by
        simp [getCommit, hk]
      rw [heq]
      exact hins k v

theorem inv_getFinalize (s : ParserState) (h : Inv s) : Inv (getFinalize s) := by
  obtain ⟨h1, h2, h3⟩ := h
  rcases s with ⟨stack, ck, cv, instr, ps, res⟩
  rcases stack with _ | ⟨top, rest⟩
  · exact ⟨h1, h2, h3⟩
  rcases res with _ | ⟨p, res2⟩
  · show Inv
      { stack := rest, current_key := ck, current_value := cv,
        in_string := instr, part_string := ps, result := top }
    simp only [stackFlat, List.all_cons, Bool.and_eq_true] at h2
    have h1' : rest.length + 1 ≤ 1 := by simpa using h1
    exact ⟨by show rest.length ≤ 1; omega, h2.2, h2.1⟩
  · exact ⟨h1, h2, h3⟩

theorem inv_getState (s : ParserState) (h : Inv s) : Inv (getState s) :=
  inv_getFinalize _ (inv_getCommit _ h)

theorem inv_init : Inv init := ⟨by simp [init], rfl, rfl⟩

theorem inv_step (s : ParserState) (c : Char) (h : Inv s) : Inv (step s c) := by
  unfold step
  split_ifs
  · exact inv_handle_start_object s h
  · exact inv_handle_end_object s h
  · exact h
  · exact inv_handle_quote s h
  · exact inv_handle_comma s h
  · exact inv_handle_non_special s c h

theorem inv_foldl_step (l : List Char) :
    ∀ s : ParserState, Inv s → Inv (l.foldl step s) := by
  induction l with
  | nil => exact fun s h => h
  | cons c cs ih => exact fun s h => ih _ (inv_step s c h)

theorem inv_consume (s : ParserState) (b : String) (h : Inv s) :
    Inv (consume s b) :=
  inv_foldl_step b.data s h

theorem inv_applyOp (s : ParserState) (op : Op) (h : Inv s) :
    Inv (applyOp s op) := by
  cases op with
  | consume b => exact inv_consume s b h
  | get => exact inv_getState s h

theorem inv_foldl_applyOp (l : List Op) :
    ∀ s : ParserState, Inv s → Inv (l.foldl applyOp s) := by
  induction l with
  | nil => exact fun s h => h
  | cons op rest ih => exact fun s h => ih _ (inv_applyOp s op h)

theorem inv_run (ops : List Op) : Inv (run ops) :=
  inv_foldl_applyOp ops init inv_init

end StreamingJson

namespace StreamingJson

/-- Claim C1: chunk-splitting invariance.  Consuming the concatenation of
two chunks leaves the parser in the same state as consuming them one after
the other (so any split of an input into chunks yields the same final
state and hence the same `get()` result); in particular consuming
`'\x7b"foo":'` then `'"bar'` and calling `get` returns the mapping
`foo ↦ bar`. -/
theorem claim1_chunk_splitting :
    (∀ (s : ParserState) (a b : String),
      consume s (a ++ b) = consume (consume s a) b) ∧
    getResult (consume (consume init "\x7b\"foo\":") "\"bar") =
      [("foo", JValue.str "bar")] :=
  ⟨consume_append, by rfl⟩

/-- Claim C2, counterexample: the claim says every character arriving
between the quotes is accumulated, including structural characters such as
an opening brace; but on input `'\x7b"a\x7bb"'` the brace inside the
string is dispatched to the open-object handler instead of being appended,
so the committed key is `"ab"`, not `"a\x7bb"`. -/
theorem claim2_counterexample :
    (consume init "\x7b\"a\x7bb\"").current_key = some "ab" ∧
    (consume init "\x7b\"a\x7bb\"").current_key ≠ some "a\x7bb" := by
  constructor
  · rfl
  · decide

/-- Claim C2, as amended: while `in_string` is true, every character that
reaches the literal-character handler is appended to the accumulator
unconditionally (no escape or whitespace processing), and every
non-structural character fed to `consume` (not one of the five dispatch
characters) is so appended; structural characters go to their handlers
even inside a string. -/
theorem claim2_amended :
    ∀ (s : ParserState) (c : Char), s.in_string = true →
      (handle_non_special_character s c =
        { s with part_string := s.part_string.push c }) ∧
      (c ≠ '\x7b' → c ≠ '\x7d' → c ≠ ':' → c ≠ '"' → c ≠ ',' →
        step s c = { s with part_string := s.part_string.push c }) := by
  intro s c hin
  constructor
  · simp [handle_non_special_character, hin]
  · intro h1 h2 h3 h4 h5
    simp [step, h1, h2, h3, h4, h5, handle_non_special_character, hin]

/-- Witness for the amended claim C2, at the in-string state reached by
consuming `'\x7b"'` and the literal character `x`. -/
theorem claim2_amended_witness :
    handle_non_special_character (consume init "\x7b\"") 'x' =
      { consume init "\x7b\"" with
        part_string := (consume init "\x7b\"").part_string.push 'x' } ∧
    step (consume init "\x7b\"") 'x' =
      { consume init "\x7b\"" with
        part_string := (consume init "\x7b\"").part_string.push 'x' } := by
  have h := claim2_amended (consume init "\x7b\"") 'x' (by rfl)
  exact ⟨h.1, h.2 (by decide) (by decide) (by decide) (by decide) (by decide)⟩

/-- Claim C3, counterexample: the claim says that with a pending pair and
an empty stack a comma leaves the state unchanged; but after consuming
`'"a" "b"'` (current key `a`, current value `b`, empty stack) a comma
clears both pending fields, changing the state. -/
theorem claim3_counterexample :
    step (consume init "\"a\" \"b\"") ',' ≠ consume init "\"a\" \"b\"" := by
  intro h
  exact absurd (congrArg ParserState.current_key h) (by decide)

/-- Claim C3, as amended: the comma handler commits the pending pair into
the top frame exactly when the current key is set and non-empty, the
current value is non-null and the stack is non-empty; when the key is set
and non-empty and the value is non-null but the stack is empty it still
clears both pending fields (without committing); and when the key is
unset, the key is the empty string, or the value is null, the state is
unchanged. -/
theorem claim3_amended :
    ∀ s : ParserState,
      (∀ (k v : String) (top : Frame) (rest : List Frame),
        s.current_key = some k → k ≠ "" → s.current_value = some v →
        s.stack = top :: rest →
        handle_comma s =
          { s with stack := insertFrame top k (JValue.str v) :: rest,
                   current_key := none, current_value := none }) ∧
      (∀ k v : String,
        s.current_key = some k → k ≠ "" → s.current_value = some v →
        s.stack = [] →
        handle_comma s =
          { s with current_key := none, current_value := none }) ∧
      (s.current_key = none ∨ s.current_key = some "" ∨
          s.current_value = none →
        handle_comma s = s) := by
  intro s
  refine ⟨?_, ?_, ?_⟩
  · intro k v top rest hk hk2 hv hst
    simp [handle_comma, hk, hv, hst, hk2]
  · intro k v hk hk2 hv hst
    simp [handle_comma, hk, hv, hst, hk2]
  · intro h
    rcases h with h | h | h
    · simp [handle_comma, h]
    · rcases hv : s.current_value with _ | v <;> simp [handle_comma, h, hv]
    · rcases hk : s.current_key with _ | k <;> simp [handle_comma, h, hk]

/-- Witness for the amended claim C3: the commit case at the state reached
by consuming `'\x7b"a":"b"'`. -/
theorem claim3_amended_witness :
    handle_comma (consume init "\x7b\"a\":\"b\"") =
      { consume init "\x7b\"a\":\"b\"" with
        stack := insertFrame [] "a" (JValue.str "b") :: [],
        current_key := none, current_value := none } :=
  (claim3_amended (consume init "\x7b\"a\":\"b\"")).1 "a" "b" [] []
    (by rfl) (by decide) (by rfl) (by rfl)

/-- Claim C4: in every state reachable from a fresh parser by `consume`
and `get` calls the stack holds at most one frame; an opening brace pushes
a new empty frame exactly when the stack is empty and is a no-op on the
whole state otherwise. -/
theorem claim4_stack_depth :
    (∀ ops : List Op, (run ops).stack.length ≤ 1) ∧
    (∀ s : ParserState, s.stack = [] →
      handle_start_object s = { s with stack := [[]] }) ∧
    (∀ s : ParserState, s.stack ≠ [] → handle_start_object s = s) := by
  refine ⟨fun ops => (inv_run ops).1, ?_, ?_⟩
  · intro s hs
    simp [handle_start_object, hs]
  · intro s hs
    rcases h : s.stack with _ | ⟨top, rest⟩
    · exact absurd h hs
    · simp [handle_start_object, h]

/-- Witness for claim C4, at a run with two opening braces, at the fresh
state, and at the one-frame state reached by consuming a single brace. -/
theorem claim4_stack_depth_witness :
    (run [Op.consume "\x7b\x7b\"a\""]).stack.length ≤ 1 ∧
    handle_start_object init = { init with stack := [[]] } ∧
    handle_start_object (consume init "\x7b") = consume init "\x7b" :=
  ⟨claim4_stack_depth.1 _, claim4_stack_depth.2.1 init (by rfl),
    claim4_stack_depth.2.2 (consume init "\x7b")
      (by simp [show (consume init "\x7b").stack = [[]] from rfl])⟩

/-- Claim C5: totality / never-fail.  In the fault-aware rendering, where
the two partial operations (`stack[-1]` and `stack.pop()`) return `none`
on an empty stack, every sequence of `consume` and `get` calls returns
`some` of the total semantics — no call ever reaches a fault — and `get`
always returns a (string-keyed) dictionary. -/
theorem claim5_never_fails :
    (∀ ops : List Op, runChecked ops = some (run ops)) ∧
    (∀ ops : List Op,
      getChecked (run ops) = some (getState (run ops), getResult (run ops))) :=
  ⟨runChecked_eq, fun ops => getChecked_eq (run ops)⟩

/-- Claim C6: partial-value tolerance.  Consuming `'\x7b"foo": "bar'`
(no closing quote) and calling `get` returns the mapping `foo ↦ bar`: the
open string accumulator is recovered as the value of the pending key. -/
theorem claim6_partial_value :
    getResult (consume init "\x7b\"foo\": \"bar") =
      [("foo", JValue.str "bar")] := by
  rfl

/-- Claim C7: key-without-value boundary.  Consuming `'\x7b"tes"'` then
calling `get` returns `tes ↦ ""`; in general, when `get` runs with a
current key set, no current value and a non-empty stack, it commits the
key with the current partial-string accumulator as value and clears both
pending fields. -/
theorem claim7_key_without_value :
    getResult (consume init "\x7b\"tes\"") = [("tes", JValue.str "")] ∧
    (∀ (s : ParserState) (k : String) (top : Frame) (rest : List Frame),
      s.current_key = some k → s.current_value = none →
      s.stack = top :: rest →
      getCommit s =
        { s with
          stack := insertFrame top k (JValue.str s.part_string) :: rest,
          current_key := none, current_value := none }) := by
  constructor
  · rfl
  · intro s k top rest hk hv hst
    simp [getCommit, hst, hk, hv]

/-- Witness for claim C7's general commit rule at the state reached by
consuming `'\x7b"tes"'`. -/
theorem claim7_witness :
    getCommit (consume init "\x7b\"tes\"") =
      { consume init "\x7b\"tes\"" with
        stack := insertFrame [] "tes"
          (JValue.str (consume init "\x7b\"tes\"").part_string) :: [],
        current_key := none, current_value := none } :=
  claim7_key_without_value.2 (consume init "\x7b\"tes\"") "tes" [] []
    (by rfl) (by rfl) (by rfl)

/-- Claim C8: garbage-prefix tolerance.  Feeding `'ar"\x7d'`, which never
opens a container, and calling `get` returns the empty mapping. -/
theorem claim8_garbage_tolerance :
    getResult (consume init "ar\"\x7d") = [] := by
  rfl

/-- Claim C9: implicit flat-result invariant.  In every reachable state
all values stored on the stack, in the result, and in the mapping `get`
returns are strings (nested objects never occur), and the stack never
holds two frames — so the close-object branch that would store a completed
object under a pending key of a parent frame is never reached. -/
theorem claim9_flat_values :
    ∀ ops : List Op,
      stackFlat (run ops).stack = true ∧
      frameFlat (run ops).result = true ∧
      frameFlat (getResult (run ops)) = true ∧
      (run ops).stack.length ≤ 1 := by
  intro ops
  obtain ⟨h1, h2, h3⟩ := inv_run ops
  obtain ⟨g1, g2, g3⟩ := inv_getState _ (inv_run ops)
  exact ⟨h2, h3, g3, h1⟩

/-- Claim C10: empty-string-key asymmetry.  A pending pair whose key is
the empty string and whose value is non-null is committed by none of the
comma handler, the close-object handler, or `get` (consuming
`'\x7b"": "x"\x7d'` then `get` gives the empty mapping), whereas a pending
empty key with a null value is committed by `get` with the accumulator
contents as value (consuming `'\x7b""'` then `get` gives `"" ↦ ""`). -/
theorem claim10_empty_key :
    getResult (consume init "\x7b\"\": \"x\"\x7d") = [] ∧
    getResult (consume init "\x7b\"\"") = [("", JValue.str "")] ∧
    (∀ s : ParserState, s.current_key = some "" → handle_comma s = s) ∧
    (∀ (s : ParserState) (top : Frame) (rest : List Frame),
      s.current_key = some "" → s.stack = top :: rest →
      (handle_end_object s).stack = rest ∧
      (handle_end_object s).result =
        (if rest.isEmpty then top else s.result)) ∧
    (∀ (s : ParserState) (v : String), s.current_key = some "" →
      s.current_value = some v → getCommit s = s) := by
  refine ⟨by rfl, by rfl, ?_, ?_, ?_⟩
  · intro s hk
    rcases hv : s.current_value with _ | v <;> simp [handle_comma, hk, hv]
  · intro s top rest hk hst
    rcases rest with _ | ⟨next, rest2⟩ <;>
      rcases hv : s.current_value with _ | v <;>
      simp [handle_end_object, hk, hst, hv, List.isEmpty]
  · intro s v hk hv
    rcases hst : s.stack with _ | ⟨top, rest⟩ <;> simp [getCommit, hk, hv, hst]

/-- Witness for claim C10's general parts at the state reached by
consuming `'\x7b"":"x"'` (empty pending key, pending value `x`). -/
theorem claim10_witness :
    handle_comma (consume init "\x7b\"\":\"x\"") =
      consume init "\x7b\"\":\"x\"" ∧
    ((handle_end_object (consume init "\x7b\"\":\"x\"")).stack = [] ∧
      (handle_end_object (consume init "\x7b\"\":\"x\"")).result =
        (if ([] : List Frame).isEmpty then ([] : Frame)
         else (consume init "\x7b\"\":\"x\"").result)) ∧
    getCommit (consume init "\x7b\"\":\"x\"") = consume init "\x7b\"\":\"x\"" :=
  ⟨claim10_empty_key.2.2.1 (consume init "\x7b\"\":\"x\"") (by rfl),
    claim10_empty_key.2.2.2.1 (consume init "\x7b\"\":\"x\"") [] []
      (by rfl) (by rfl),
    claim10_empty_key.2.2.2.2 (consume init "\x7b\"\":\"x\"") "x"
      (by rfl) (by rfl)⟩

end StreamingJson
